import Mathlib

/-!
Shallow embedding of the goenv library (package `goenv`): the `.env`
discovery and parsing engine of `src/unnamed/part_000`.

The process environment is modelled as a partial map from variable names to
values (`Store`).  Filesystem interaction is modelled by an abstract `FS`
record providing the four operations the code performs (`fileExists`,
`ReadDir`, file reading, `filepath.Abs`); every function of the library is
then a pure state-passing function over `Store` (and, for the traversal,
over the visited set).  Errors produced with `fmt.Errorf` are modelled by a
structured `Err` type carrying the same data the formatted messages carry.
-/

namespace Goenv

/-- The process environment: a partial map from variable names to values.
Models the `os.Setenv` / `os.LookupEnv` state. -/
def Store : Type := String → Option String

def emptyStore : Store := fun _ => none

/-- `os.Setenv key value`. -/
def setEnv (s : Store) (key value : String) : Store :=
  fun x => if x = key then some value else s x

/-- Structured model of the errors the library produces via `fmt.Errorf`
and raw `os` errors. -/
inductive Err where
  | ioError (path : String)
  | invalidFormat (file : String) (lineNum : Nat) (text : String)
  | invalidKey (file : String) (lineNum : Nat) (key : String)
  | absError (path : String)
  | readDirError (path : String)
  | loadFailed (path : String) (cause : Err)
deriving DecidableEq, Repr

/-- `strings.SplitN s sep 2` restricted to single-character separators:
`none` when the separator does not occur (Go returns one part), otherwise
the pieces before and after the first occurrence. -/
def splitFirst (sep : Char) : List Char → Option (List Char × List Char)
  | [] => none
  | c :: rest =>
    if c = sep then some ([], rest)
    else
      match splitFirst sep rest with
      | none => none
      | some (a, b) => some (c :: a, b)

/-- Leading-whitespace removal (half of `strings.TrimSpace`). -/
def trimLeading (cs : List Char) : List Char := cs.dropWhile Char.isWhitespace

/-- Trailing-whitespace removal (other half of `strings.TrimSpace`). -/
def trimTrailing (cs : List Char) : List Char :=
  (cs.reverse.dropWhile Char.isWhitespace).reverse

/-- `strings.TrimSpace`, on the character list of a string. -/
def trimSpace (cs : List Char) : List Char := trimTrailing (trimLeading cs)

/-- First-character test of `isValidEnvKey`: letter or underscore. -/
def isKeyStartChar (c : Char) : Bool :=
  ('A' ≤ c && c ≤ 'Z') || ('a' ≤ c && c ≤ 'z') || c = '_'

/-- Subsequent-character test of `isValidEnvKey`: letter, digit or underscore. -/
def isKeyTailChar (c : Char) : Bool :=
  ('A' ≤ c && c ≤ 'Z') || ('a' ≤ c && c ≤ 'z') || ('0' ≤ c && c ≤ '9') || c = '_'

/-- `isValidEnvKey` from the source: non-empty, first rune a letter or
underscore, every later rune a letter, digit or underscore. -/
def isValidEnvKey (key : String) : Bool :=
  match key.data with
  | [] => false
  | c :: rest => isKeyStartChar c && rest.all isKeyTailChar

/-- The quoted-value handling of `parseAndSetEnvVar`: when the value has
length at least 2 and is wrapped in a matching pair of double or single
quotes, strip exactly that outer pair. -/
def stripQuotes (v : List Char) : List Char :=
  if 2 ≤ v.length ∧
      ((v.head? = some '"' ∧ v.getLast? = some '"') ∨
       (v.head? = some '\'' ∧ v.getLast? = some '\'')) then
    (v.drop 1).dropLast
  else v

/-- The two parse-failure shapes of `parseAndSetEnvVar`. -/
inductive ParseFail where
  | noSeparator
  | badKey (key : String)
deriving DecidableEq, Repr

/-- The pure part of `parseAndSetEnvVar`: split the (already trimmed) line
on the first `=`, trim key and value, strip one matching outer quote pair
from the value, validate the key. -/
def parseEnvLine (line : List Char) : Except ParseFail (String × String) :=
  match splitFirst '=' line with
  | none => .error .noSeparator
  | some (k0, v0) =>
    let key := (trimSpace k0).asString
    let value := stripQuotes (trimSpace v0)
    if isValidEnvKey key then .ok (key, value.asString) else .error (.badKey key)

/-- `parseAndSetEnvVar(line, filePath, lineNum)`: parse one trimmed line and
commit the resulting pair with `os.Setenv`, or fail with the error carrying
file, line number and offending text. -/
def parseAndSetEnvVar (line : List Char) (filePath : String) (lineNum : Nat)
    (store : Store) : Store × Option Err :=
  match parseEnvLine line with
  | .ok (k, v) => (setEnv store k v, none)
  | .error .noSeparator => (store, some (.invalidFormat filePath lineNum line.asString))
  | .error (.badKey k) => (store, some (.invalidKey filePath lineNum k))

/-- A trimmed line the scanner loop skips: empty, or starting with `#`. -/
def isSkipLine (t : List Char) : Bool := t.isEmpty || t.head? == some '#'

/-- The scanner loop of `loadVarsFromFile`: lines are numbered from 1,
trimmed, blank and comment lines skipped, every other line handed to
`parseAndSetEnvVar`; the first error stops the loop. -/
def processLines (filePath : String) : List String → Nat → Store → Store × Option Err
  | [], _, store => (store, none)
  | raw :: rest, n, store =>
    let t := trimSpace raw.data
    if isSkipLine t then processLines filePath rest (n + 1) store
    else
      match parseAndSetEnvVar t filePath n store with
      | (store', none) => processLines filePath rest (n + 1) store'
      | (store', some e) => (store', some e)

/-- A directory entry as returned by `os.ReadDir`.  `isDir` models
`entry.IsDir()`, which reports the entry's own type without following
links: a symbolic link is reported with `isDir = false`. -/
structure DirEntry where
  name : String
  isDir : Bool
deriving DecidableEq, Repr

/-- Abstract filesystem: the four operations the library performs.
`readFile` yields the file's lines, `none` modelling an open/read failure;
`abs` models `filepath.Abs` (a lexical operation), `none` modelling its
failure. -/
structure FS where
  fileExists : String → Bool
  readDir : String → Option (List DirEntry)
  readFile : String → Option (List String)
  abs : String → Option String

/-- `strings.HasPrefix(name, ".")`: test for a leading dot. -/
def hasDotPrefix (s : String) : Bool := s.data.head? == some '.'

/-- `loadVarsFromFile(path)`: open and scan the file, committing each
parsed line; an open/read failure is returned as an I/O error. -/
def loadVarsFromFile (fs : FS) (path : String) (store : Store) : Store × Option Err :=
  match fs.readFile path with
  | none => (store, some (.ioError path))
  | some lines => processLines path lines 1 store

/-- `LoadFile(path)`: parse exactly one named file. -/
def LoadFile (fs : FS) (path : String) (store : Store) : Store × Option Err :=
  loadVarsFromFile fs path store

/-- Package constant `MaxDepth`. -/
def MaxDepth : Nat := 10

/-- The `Config` structure. -/
structure Config where
  EnvFiles : List String
  MaxDepth : Nat
  StopOnFirst : Bool
  Prefix : String

/-- `DefaultConfig()`. -/
def DefaultConfig : Config := ⟨[".env"], MaxDepth, true, ""⟩

/-- `filepath.Join(dir, name)`, modelled as plain separator concatenation. -/
def joinPath (dir name : String) : String := dir ++ "/" ++ name

/-- Result of one traversal call: final store, final visited set (the Go
`visited` map is mutated in place, so updates persist across returns), and
the returned error. -/
structure LoadResult where
  store : Store
  visited : List String
  err : Option Err

/-- The candidate-file loop of `loadFromDirectory`: for each configured
filename, if it exists in `dir`, load it (an error is wrapped as
`failed to load <path>`); on success with `StopOnFirst` set, signal the
caller to return immediately (`stopped = true`). -/
def loadEnvFiles (fs : FS) (dir : String) (stopOnFirst : Bool) :
    List String → Store → Store × Bool × Option Err
  | [], store => (store, false, none)
  | f :: rest, store =>
    let envPath := joinPath dir f
    if fs.fileExists envPath then
      match loadVarsFromFile fs envPath store with
      | (store', some e) => (store', false, some (.loadFailed envPath e))
      | (store', none) =>
        if stopOnFirst then (store', true, none)
        else loadEnvFiles fs dir stopOnFirst rest store'
    else loadEnvFiles fs dir stopOnFirst rest store

mutual

/-- `loadFromDirectory(dir, config, depth, visited)`: depth guard, cycle
guard on the absolute path, candidate-file loop, then recursion into the
non-hidden subdirectories. -/
def loadFromDirectory (fs : FS) (cfg : Config) (dir : String) (depth : Nat)
    (visited : List String) (store : Store) : LoadResult :=
  if cfg.MaxDepth < depth then ⟨store, visited, none⟩
  else
    match fs.abs dir with
    | none => ⟨store, visited, some (.absError dir)⟩
    | some absPath =>
      if absPath ∈ visited then ⟨store, visited, none⟩
      else
        match loadEnvFiles fs dir cfg.StopOnFirst cfg.EnvFiles store with
        | (store', _, some e) => ⟨store', absPath :: visited, some e⟩
        | (store', true, none) => ⟨store', absPath :: visited, none⟩
        | (store', false, none) =>
          match fs.readDir dir with
          | none => ⟨store', absPath :: visited, some (.readDirError dir)⟩
          | some entries => loadSubdirs fs cfg dir depth entries (absPath :: visited) store'
termination_by (cfg.MaxDepth + 1 - depth, 0)

/-- The subdirectory loop of `loadFromDirectory`: recurse into each entry
that is a directory and not dot-prefixed, at `depth + 1`; the first error
aborts the loop, and the visited set threads through. -/
def loadSubdirs (fs : FS) (cfg : Config) (dir : String) (depth : Nat)
    (entries : List DirEntry) (visited : List String) (store : Store) : LoadResult :=
  match entries with
  | [] => ⟨store, visited, none⟩
  | e :: rest =>
    if e.isDir && !(hasDotPrefix e.name) then
      match loadFromDirectory fs cfg (joinPath dir e.name) (depth + 1) visited store with
      | ⟨store', visited', some err⟩ => ⟨store', visited', some err⟩
      | ⟨store', visited', none⟩ => loadSubdirs fs cfg dir depth rest visited' store'
    else loadSubdirs fs cfg dir depth rest visited store
termination_by (cfg.MaxDepth - depth, entries.length)

end

/-- `LoadWithConfig(config)`: substitute the default configuration for a
nil argument and start the traversal at `"."`, depth 0, empty visited set. -/
def LoadWithConfig (fs : FS) (config : Option Config) (store : Store) : LoadResult :=
  match config with
  | none => loadFromDirectory fs DefaultConfig "." 0 [] store
  | some cfg => loadFromDirectory fs cfg "." 0 [] store

/-- `Load()`: backward-compatible entry point. -/
def Load (fs : FS) (store : Store) : LoadResult :=
  LoadWithConfig fs none store

/-- `GetString(key, fallback)`. -/
def GetString (store : Store) (key fallback : String) : String :=
  match store key with
  | some v => v
  | none => fallback

/-- `strconv.ParseBool`: the exact literal sets Go accepts. -/
def parseBool (s : String) : Option Bool :=
  if s = "1" ∨ s = "t" ∨ s = "T" ∨ s = "true" ∨ s = "TRUE" ∨ s = "True" then some true
  else if s = "0" ∨ s = "f" ∨ s = "F" ∨ s = "false" ∨ s = "FALSE" ∨ s = "False" then some false
  else none

/-- `GetBool(key, fallback)`. -/
def GetBool (store : Store) (key : String) (fallback : Bool) : Bool :=
  match store key with
  | none => fallback
  | some v =>
    match parseBool v with
    | some b => b
    | none => fallback

/-- `MustGetString(key)`: the Go `panic` on a missing key is modelled as the
error branch of `Except`. -/
def MustGetString (store : Store) (key : String) : Except String String :=
  match store key with
  | some v => .ok v
  | none => .error ("required environment variable " ++ key ++ " not found")

/-! Spec-side predicates, stated from the specification's words rather than
from the code, for comparison against the code's definitions. -/

/-- Key-format validity as the spec words it: non-empty, first character a
letter (`A`-`Z`, `a`-`z`) or underscore, every subsequent character a
letter, digit, or underscore. -/
def specValidKey (s : String) : Prop :=
  s ≠ "" ∧ ∃ c cs, s.data = c :: cs ∧
    (('A' ≤ c ∧ c ≤ 'Z') ∨ ('a' ≤ c ∧ c ≤ 'z') ∨ c = '_') ∧
    ∀ d ∈ cs,
      ('A' ≤ d ∧ d ≤ 'Z') ∨ ('a' ≤ d ∧ d ≤ 'z') ∨ ('0' ≤ d ∧ d ≤ '9') ∨ d = '_'

/-- Store-change provenance: every key at which `s₁` differs from `s₀` has
passed the code's key-format validation. -/
def StoreKeysValid (s₀ s₁ : Store) : Prop :=
  ∀ x, s₁ x ≠ s₀ x → isValidEnvKey x = true

/-- Visited-set provenance: every entry of `vis₁` was already in `vis₀` or
is an output of the filesystem's `filepath.Abs` operation. -/
def VisitedFromAbs (fs : FS) (vis₀ vis₁ : List String) : Prop :=
  ∀ v, v ∈ vis₁ → v ∈ vis₀ ∨ ∃ d, fs.abs d = some v

/-- One line of a file is unproblematic for the scanner: after trimming it
is skipped (blank or comment) or it parses into a key/value pair. -/
def lineOk (raw : String) : Bool :=
  let t := trimSpace raw.data
  isSkipLine t ||
    match parseEnvLine t with
    | .ok _ => true
    | .error _ => false

/-- The cumulative effect on the store of a list of lines that are all
`lineOk`: skipped lines contribute nothing, parsed lines are committed. -/
def applyLines (lines : List String) (store : Store) : Store :=
  lines.foldl
    (fun st raw =>
      let t := trimSpace raw.data
      if isSkipLine t then st
      else
        match parseEnvLine t with
        | .ok kv => setEnv st kv.1 kv.2
        | .error _ => st)
    store

/-! Concrete filesystems used as witnesses and counterexamples. -/

/-- A filesystem whose file `f` holds the single line `A=1`. -/
def fsOneLine : FS where
  fileExists _ := false
  readDir _ := some []
  readFile p := if p = "f" then some ["A=1"] else none
  abs p := some p

/-- A filesystem whose file `f` holds a good line, a blank line, a comment,
and then a line with no `=`. -/
def fsBadLine : FS where
  fileExists _ := false
  readDir _ := some []
  readFile p := if p = "f" then some ["GOOD_KEY=1", "   ", "# note", "NOEQUALS"] else none
  abs p := some p

/-- A filesystem whose file `f` holds the single line `A="x=y"`. -/
def fsQuoted : FS where
  fileExists _ := false
  readDir _ := some []
  readFile p := if p = "f" then some ["A=\"x=y\""] else none
  abs p := some p

/-- A tree with two `.env` files in sibling subtrees at different depths:
`./a/.env` (depth 1) and `./b/c/.env` (depth 2); the root has none. -/
def fsSiblings : FS where
  fileExists p := p = "./a/.env" || p = "./b/c/.env"
  readDir p :=
    if p = "." then some [⟨"a", true⟩, ⟨"b", true⟩]
    else if p = "./a" then some []
    else if p = "./b" then some [⟨"c", true⟩]
    else if p = "./b/c" then some []
    else none
  readFile p :=
    if p = "./a/.env" then some ["A_KEY=1"]
    else if p = "./b/c/.env" then some ["B_KEY=2"]
    else none
  abs p := some p

/-- A tree with `.env` both in the root and in the subdirectory `sub`
below it (two candidates at different depths on one root-to-leaf path). -/
def fsNested : FS where
  fileExists p := p = "./.env" || p = "./sub/.env"
  readDir p :=
    if p = "." then some [⟨"sub", true⟩]
    else if p = "./sub" then some []
    else none
  readFile p :=
    if p = "./.env" then some ["ROOT_KEY=r"]
    else if p = "./sub/.env" then some ["SUB_KEY=s"]
    else none
  abs p := some p

/-- A filesystem as seen when the starting directory is reached through a
symbolic link: the real directory `/real/proj` is entered via the link
`/tmp/alias`, so `filepath.Abs "."` (which builds on the working-directory
path) yields the unresolved alias `/tmp/alias`, while symlink resolution
(`filepath.EvalSymlinks`) would yield `/real/proj`.  The directory holds a
symbolic link `loop` back to itself — reported by `os.ReadDir` as a
non-directory entry, since `IsDir()` does not follow links — and one real
subdirectory `sub`. -/
def fsAlias : FS where
  fileExists _ := false
  readDir p :=
    if p = "." then some [⟨"loop", false⟩, ⟨"sub", true⟩]
    else if p = "./sub" then some []
    else none
  readFile _ := none
  abs p :=
    if p = "." then some "/tmp/alias"
    else if p = "./sub" then some "/tmp/alias/sub"
    else none

/-- Symlink resolution (`filepath.EvalSymlinks`) for `fsAlias`: the alias
prefix `/tmp/alias` resolves to the real location `/real/proj`. -/
def resolveAlias : String → String := fun p =>
  if p = "/tmp/alias" then "/real/proj"
  else if p = "/tmp/alias/sub" then "/real/proj/sub"
  else p

/-- A linear chain of directories `d1/…/d6` with a `.env` file six levels
below the root and nowhere else. -/
def fsDeep : FS where
  fileExists p := p = "./d1/d2/d3/d4/d5/d6/.env"
  readDir p :=
    if p = "." then some [⟨"d1", true⟩]
    else if p = "./d1" then some [⟨"d2", true⟩]
    else if p = "./d1/d2" then some [⟨"d3", true⟩]
    else if p = "./d1/d2/d3" then some [⟨"d4", true⟩]
    else if p = "./d1/d2/d3/d4" then some [⟨"d5", true⟩]
    else if p = "./d1/d2/d3/d4/d5" then some [⟨"d6", true⟩]
    else if p = "./d1/d2/d3/d4/d5/d6" then some []
    else none
  readFile p :=
    if p = "./d1/d2/d3/d4/d5/d6/.env" then some ["DEEP_KEY=deep_value"] else none
  abs p := some p

/-- Configuration with candidate `.env`, a given depth bound, and
stop-on-first-match. -/
def cfgDeep (d : Nat) : Config := ⟨[".env"], d, true, ""⟩

/-- A filesystem on which every file read fails, while `./.env` exists. -/
def fsUnreadable : FS where
  fileExists p := p = "./.env"
  readDir _ := some []
  readFile _ := none
  abs p := some p

/-- Case-insensitive string equality (character-wise lowering), used to
state the spec's "case-insensitively" side conditions. -/
def eqCaseInsensitive (a b : String) : Bool :=
  a.data.map Char.toLower == b.data.map Char.toLower

/-! Supporting lemmas. -/

@[simp] theorem asString_toList (l : List Char) : l.asString.toList = l := rfl

@[simp] theorem asString_data (l : List Char) : l.asString.data = l := rfl

theorem optionChange {a b c : Option String} (h : c ≠ a) : c ≠ b ∨ b ≠ a := by
  by_cases hb : b = a
  · exact Or.inl (hb ▸ h)
  · exact Or.inr hb

/-! Claim C10. -/

/-- C10: calling `LoadWithConfig` with a nil configuration is the same as
calling it with the default configuration — candidate filenames `[".env"]`,
max depth 10, stop-on-first-match true, empty prefix — and `Load()` is
exactly `LoadWithConfig nil`: on every filesystem and starting store the
results (final store, visited set, and error) coincide. -/
theorem c10_load_nil_is_default (fs : FS) (store : Store) :
    LoadWithConfig fs none store =
      LoadWithConfig fs (some ⟨[".env"], 10, true, ""⟩) store ∧
    Load fs store = LoadWithConfig fs none store :=
  ⟨rfl, rfl⟩

/-! Claim C9. -/

/-- C9: `MustGetString` returns the stored string exactly when the key is
present — unchanged, with no fallback and no conversion — and fails with
the fatal (panic) condition exactly when the key is absent. -/
theorem c9_mustGetString_spec (store : Store) (key : String) :
    (∀ v, store key = some v → MustGetString store key = .ok v) ∧
    (store key = none →
      MustGetString store key =
        .error ("required environment variable " ++ key ++ " not found")) := by
  constructor
  · intro v hv
    simp [MustGetString, hv]
  · intro hv
    simp [MustGetString, hv]

theorem c9_mustGetString_spec_witness :
    MustGetString (setEnv emptyStore "K" "v1") "K" = .ok "v1" ∧
    MustGetString emptyStore "K" =
      .error ("required environment variable " ++ "K" ++ " not found") :=
  ⟨(c9_mustGetString_spec (setEnv emptyStore "K" "v1") "K").1 "v1" (by decide),
   (c9_mustGetString_spec emptyStore "K").2 rfl⟩

/-! Claim C4. -/

/-- C4 counterexample: the stored string `"t"` is none of `"true"`,
`"True"`, `"TRUE"`, `"1"`, is not case-insensitively `"false"`, and is not
`"0"`, so the claim requires `GetBool` to return the fallback (`false`
here); the code returns `true`, because `strconv.ParseBool` also accepts
`"t"`. -/
theorem c4_getBool_cex :
    GetBool (setEnv emptyStore "K" "t") "K" false = true ∧
    "t" ∉ (["true", "True", "TRUE", "1"] : List String) ∧
    eqCaseInsensitive "t" "false" = false ∧ "t" ≠ "0" := by
  decide

/-- C4 amended: `GetBool` returns `true` exactly when the stored value is
one of `"1"`, `"t"`, `"T"`, `"true"`, `"TRUE"`, `"True"`, returns `false`
exactly when it is one of `"0"`, `"f"`, `"F"`, `"false"`, `"FALSE"`,
`"False"` (the literals `strconv.ParseBool` accepts), and returns the
fallback for every other stored string and when the key is unset. -/
theorem c4_getBool_amended (store : Store) (key : String) (fb : Bool) :
    (store key = none → GetBool store key fb = fb) ∧
    ∀ v, store key = some v →
      ((v ∈ (["1", "t", "T", "true", "TRUE", "True"] : List String) →
          GetBool store key fb = true) ∧
       (v ∈ (["0", "f", "F", "false", "FALSE", "False"] : List String) →
          GetBool store key fb = false) ∧
       (v ∉ (["1", "t", "T", "true", "TRUE", "True"] : List String) →
        v ∉ (["0", "f", "F", "false", "FALSE", "False"] : List String) →
          GetBool store key fb = fb)) := by
  refine ⟨fun h => by simp [GetBool, h], fun v hv => ⟨?_, ?_, ?_⟩⟩
  · intro h
    simp only [List.mem_cons, List.not_mem_nil, or_false] at h
    rcases h with h | h | h | h | h | h <;> subst h <;> simp [GetBool, hv, parseBool]
  · intro h
    simp only [List.mem_cons, List.not_mem_nil, or_false] at h
    rcases h with h | h | h | h | h | h <;> subst h <;> simp [GetBool, hv, parseBool]
  · intro h1 h2
    simp only [List.mem_cons, List.not_mem_nil, or_false, not_or] at h1 h2
    simp [GetBool, hv, parseBool, h1.1, h1.2.1, h1.2.2.1, h1.2.2.2.1, h1.2.2.2.2.1,
      h1.2.2.2.2.2, h2.1, h2.2.1, h2.2.2.1, h2.2.2.2.1, h2.2.2.2.2.1, h2.2.2.2.2.2]

/-! Trimming lemmas used by the parser claims. -/

theorem trimLeading_cons_of (c : Char) (cs : List Char) (h : c.isWhitespace = false) :
    trimLeading (c :: cs) = c :: cs := by
  simp [trimLeading, List.dropWhile_cons, h]

theorem trimTrailing_concat_of (cs : List Char) (d : Char) (h : d.isWhitespace = false) :
    trimTrailing (cs ++ [d]) = cs ++ [d] := by
  simp [trimTrailing, List.dropWhile_cons, h]

theorem trimSpace_sandwich (c : Char) (cs : List Char) (d : Char)
    (hc : c.isWhitespace = false) (hd : d.isWhitespace = false) :
    trimSpace (c :: cs ++ [d]) = c :: cs ++ [d] := by
  have h1 : trimLeading (c :: cs ++ [d]) = c :: cs ++ [d] := trimLeading_cons_of _ _ hc
  have h2 : c :: cs ++ [d] = (c :: cs) ++ [d] := by simp
  rw [trimSpace, h1, h2, trimTrailing_concat_of _ _ hd]

theorem c4_getBool_amended_witness :
    GetBool (setEnv emptyStore "K" "TRUE") "K" false = true ∧
    GetBool (setEnv emptyStore "K" "F") "K" true = false ∧
    GetBool (setEnv emptyStore "K" "yes") "K" true = true :=
  ⟨((c4_getBool_amended (setEnv emptyStore "K" "TRUE") "K" false).2 "TRUE"
      (by decide)).1 (by decide),
   ((c4_getBool_amended (setEnv emptyStore "K" "F") "K" true).2 "F"
      (by decide)).2.1 (by decide),
   ((c4_getBool_amended (setEnv emptyStore "K" "yes") "K" true).2 "yes"
      (by decide)).2.2 (by decide) (by decide)⟩

/-! Claim C5. -/

theorem stripQuotes_dquote (v : List Char) :
    stripQuotes ('"' :: v ++ ['"']) = v := by
  have hcat : '"' :: v ++ ['"'] = ('"' :: v) ++ ['"'] := by simp
  rw [stripQuotes, if_pos]
  · rw [hcat]
    simp [List.dropLast_concat]
  · refine ⟨by simp, Or.inl ⟨rfl, ?_⟩⟩
    rw [hcat, List.getLast?_concat]

/-- C5: the line is split on the first `=` only, so the value may itself
contain `=`: for every character sequence `v`, loading a file whose single
line is `A="v"` succeeds and `GetString "A" ""` returns exactly `v` — the
single outer matched quote pair stripped and every interior `=` preserved.
Instantiating `v := x=y` gives the claim's round trip. -/
theorem c5_split_first_roundtrip (fs : FS) (path : String) (store : Store) (v : List Char)
    (hread : fs.readFile path = some [('A' :: '=' :: '"' :: v ++ ['"']).asString]) :
    (LoadFile fs path store).2 = none ∧
    GetString (LoadFile fs path store).1 "A" "" = v.asString := by
  have htrim : trimSpace ('A' :: '=' :: '"' :: v ++ ['"']) = 'A' :: '=' :: '"' :: v ++ ['"'] := by
    have := trimSpace_sandwich 'A' ('=' :: '"' :: v) '"' (by decide) (by decide)
    simpa using this
  have hvtrim : trimSpace ('"' :: v ++ ['"']) = '"' :: v ++ ['"'] := by
    have := trimSpace_sandwich '"' v '"' (by decide) (by decide)
    simpa using this
  have hsplit : splitFirst '=' ('A' :: '=' :: '"' :: v ++ ['"']) =
      some (['A'], '"' :: v ++ ['"']) := by
    simp [splitFirst]
  have hkey : (trimSpace ['A']).asString = "A" := by decide
  have hvalid : isValidEnvKey "A" = true := by decide
  have hpe : parseEnvLine ('A' :: '=' :: '"' :: v ++ ['"']) = .ok ("A", v.asString) := by
    simp only [parseEnvLine, hsplit, hkey, hvtrim, stripQuotes_dquote, hvalid, if_true]
  have hload : LoadFile fs path store =
      (setEnv store "A" v.asString, none) := by
    simp only [LoadFile, loadVarsFromFile, hread, processLines, asString_data, htrim]
    rw [if_neg (by simp [isSkipLine])]
    simp only [parseAndSetEnvVar, hpe, processLines]
  rw [hload]
  exact ⟨rfl, by simp [GetString, setEnv]⟩

theorem c5_split_first_roundtrip_witness :
    (LoadFile fsQuoted "f" emptyStore).2 = none ∧
    GetString (LoadFile fsQuoted "f" emptyStore).1 "A" "" = "x=y" := by
  have h := c5_split_first_roundtrip fsQuoted "f" emptyStore ['x', '=', 'y'] (by decide)
  simpa using h

/-! Claim C6. -/

theorem processLines_stops (path : String) (raw : String) (post : List String)
    (hskip : isSkipLine (trimSpace raw.data) = false)
    (hnoeq : splitFirst '=' (trimSpace raw.data) = none) :
    ∀ (pre : List String) (n : Nat) (store : Store), (∀ l ∈ pre, lineOk l = true) →
      processLines path (pre ++ raw :: post) n store =
        (applyLines pre store,
         some (.invalidFormat path (n + pre.length) (trimSpace raw.data).asString)) := by
  intro pre
  induction pre with
  | nil =>
    intro n store _
    simp [processLines, hskip, parseAndSetEnvVar, parseEnvLine, hnoeq, applyLines]
  | cons l pre ih =>
    intro n store hok
    have hl := hok l (List.mem_cons_self l pre)
    rw [lineOk] at hl
    have hok' : ∀ x ∈ pre, lineOk x = true := fun x hx => hok x (List.mem_cons_of_mem _ hx)
    rw [List.cons_append]
    by_cases hsl : isSkipLine (trimSpace l.data) = true
    · have happ : applyLines (l :: pre) store = applyLines pre store := by
        simp [applyLines, hsl]
      rw [processLines]
      simp only [hsl, if_true]
      rw [ih (n + 1) store hok', happ, List.length_cons,
        show n + 1 + pre.length = n + (pre.length + 1) by omega]
    · rcases hpe : parseEnvLine (trimSpace l.data) with e | kv
      · rw [hpe] at hl
        simp [hsl] at hl
      · have happ : applyLines (l :: pre) store = applyLines pre (setEnv store kv.1 kv.2) := by
          simp [applyLines, hsl, hpe]
        rw [processLines]
        simp only [hsl, if_false, Bool.false_eq_true, ite_false]
        simp only [parseAndSetEnvVar, hpe]
        rw [ih (n + 1) (setEnv store kv.1 kv.2) hok', happ, List.length_cons,
          show n + 1 + pre.length = n + (pre.length + 1) by omega]


/-- C6: when line `n` of a file — after trimming, and neither blank nor a
comment — contains no `=`, and every earlier line is unproblematic,
`LoadFile` returns the format error naming the file, the line number `n`,
and echoing the offending (trimmed) line; the store is exactly the result
of applying the lines before `n`, so no line at or after `n` is applied
and every assignment committed before `n` remains set. -/
theorem c6_loadFile_format_error (fs : FS) (path : String) (pre post : List String)
    (raw : String) (store : Store)
    (hread : fs.readFile path = some (pre ++ raw :: post))
    (hok : ∀ l ∈ pre, lineOk l = true)
    (hskip : isSkipLine (trimSpace raw.data) = false)
    (hnoeq : splitFirst '=' (trimSpace raw.data) = none) :
    LoadFile fs path store =
      (applyLines pre store,
       some (.invalidFormat path (pre.length + 1) (trimSpace raw.data).asString)) := by
  simp only [LoadFile, loadVarsFromFile, hread]
  rw [processLines_stops path raw post hskip hnoeq pre 1 store hok, Nat.add_comm]

/-! Key-validation provenance lemmas (claims C1 and C3). -/

theorem specValidKey_of_isValidEnvKey {s : String} (h : isValidEnvKey s = true) :
    specValidKey s := by
  obtain ⟨l⟩ := s
  cases l with
  | nil => simp [isValidEnvKey] at h
  | cons c cs =>
    simp only [isValidEnvKey, Bool.and_eq_true] at h
    obtain ⟨h1, h2⟩ := h
    refine ⟨by simp [String.ext_iff], c, cs, rfl, ?_, ?_⟩
    · simp [isKeyStartChar] at h1
      tauto
    · intro d hd
      have := List.all_eq_true.mp h2 d hd
      simp [isKeyTailChar] at this
      tauto

theorem setEnv_change {s : Store} {k v x : String} (h : setEnv s k v x ≠ s x) : x = k := by
  by_contra hx
  simp [setEnv, hx] at h

theorem parseEnvLine_ok_key {l : List Char} {k v : String}
    (h : parseEnvLine l = .ok (k, v)) : isValidEnvKey k = true := by
  rw [parseEnvLine] at h
  rcases hs : splitFirst '=' l with _ | ⟨k0, v0⟩ <;> rw [hs] at h
  · exact absurd h (by simp)
  · dsimp only at h
    split at h
    · simp only [Except.ok.injEq, Prod.mk.injEq] at h
      obtain ⟨rfl, -⟩ := h
      assumption
    · exact absurd h (by simp)

theorem parseAndSetEnvVar_changed {l : List Char} {p : String} {n : Nat} {s : Store}
    {x : String} (h : (parseAndSetEnvVar l p n s).1 x ≠ s x) : isValidEnvKey x = true := by
  rw [parseAndSetEnvVar] at h
  rcases hp : parseEnvLine l with e | ⟨k, v⟩ <;> rw [hp] at h
  · rcases e <;> simp at h
  · have hx : x = k := setEnv_change (by simpa using h)
    rw [hx]
    exact parseEnvLine_ok_key hp

theorem processLines_changed (p : String) :
    ∀ (lines : List String) (n : Nat) (s : Store) (x : String),
      (processLines p lines n s).1 x ≠ s x → isValidEnvKey x = true := by
  intro lines
  induction lines with
  | nil => intro n s x h; simp [processLines] at h
  | cons raw rest ih =>
    intro n s x h
    rw [processLines] at h
    by_cases hs : isSkipLine (trimSpace raw.data) = true
    · rw [if_pos hs] at h
      exact ih _ _ _ h
    · rw [if_neg hs] at h
      rcases hpa : parseAndSetEnvVar (trimSpace raw.data) p n s with ⟨s1, oe⟩
      rw [hpa] at h
      cases oe with
      | none =>
        rcases optionChange h with h1 | h1
        · exact ih _ _ _ h1
        · exact parseAndSetEnvVar_changed (x := x) (by rw [hpa]; exact h1)
      | some e =>
        exact parseAndSetEnvVar_changed (x := x) (by rw [hpa]; simpa using h)

theorem loadVarsFromFile_changed {fs : FS} {path : String} {s : Store} {x : String}
    (h : (loadVarsFromFile fs path s).1 x ≠ s x) : isValidEnvKey x = true := by
  rw [loadVarsFromFile] at h
  rcases hr : fs.readFile path with _ | lines <;> rw [hr] at h
  · simp at h
  · exact processLines_changed path lines 1 s x h

theorem loadEnvFiles_changed (fs : FS) (dir : String) (stop : Bool) :
    ∀ (files : List String) (s : Store) (x : String),
      (loadEnvFiles fs dir stop files s).1 x ≠ s x → isValidEnvKey x = true := by
  intro files
  induction files with
  | nil => intro s x h; simp [loadEnvFiles] at h
  | cons f rest ih =>
    intro s x h
    simp only [loadEnvFiles] at h
    by_cases hex : fs.fileExists (joinPath dir f) = true
    · rw [if_pos hex] at h
      rcases hlv : loadVarsFromFile fs (joinPath dir f) s with ⟨s1, oe⟩
      rw [hlv] at h
      cases oe with
      | some e =>
        exact loadVarsFromFile_changed (x := x) (by rw [hlv]; simpa using h)
      | none =>
        by_cases hstop : stop = true
        · rw [hstop] at h
          simp only [if_true] at h
          exact loadVarsFromFile_changed (x := x) (by rw [hlv]; simpa using h)
        · rw [Bool.not_eq_true] at hstop
          subst hstop
          simp only [Bool.false_eq_true, if_false] at h
          rcases optionChange h with h1 | h1
          · exact ih _ _ h1
          · exact loadVarsFromFile_changed (x := x) (by rw [hlv]; exact h1)
    · rw [if_neg hex] at h
      exact ih _ _ h

theorem traversal_aux :
    ∀ N : Nat,
      (∀ (fs : FS) (cfg : Config) (dir : String) (depth : Nat) (visited : List String)
          (store : Store),
        cfg.MaxDepth + 1 - depth ≤ N →
        StoreKeysValid store (loadFromDirectory fs cfg dir depth visited store).store ∧
        VisitedFromAbs fs visited (loadFromDirectory fs cfg dir depth visited store).visited) ∧
      (∀ (fs : FS) (cfg : Config) (dir : String) (depth : Nat) (entries : List DirEntry)
          (visited : List String) (store : Store),
        depth ≤ cfg.MaxDepth → cfg.MaxDepth + 1 - depth ≤ N →
        StoreKeysValid store (loadSubdirs fs cfg dir depth entries visited store).store ∧
        VisitedFromAbs fs visited (loadSubdirs fs cfg dir depth entries visited store).visited) := by
  intro N
  induction N with
  | zero =>
    constructor
    · intro fs cfg dir depth visited store hN
      have hguard : cfg.MaxDepth < depth := by omega
      have heq : loadFromDirectory fs cfg dir depth visited store = ⟨store, visited, none⟩ := by
        simp only [loadFromDirectory]
        rw [if_pos hguard]
      rw [heq]
      exact ⟨fun x hx => absurd rfl hx, fun v hv => Or.inl hv⟩
    · intro fs cfg dir depth entries visited store hdep hN
      exact absurd hN (by omega)
  | succ N IH =>
    have hsub : ∀ (fs : FS) (cfg : Config) (dir : String) (depth : Nat)
        (entries : List DirEntry) (visited : List String) (store : Store),
        depth ≤ cfg.MaxDepth → cfg.MaxDepth + 1 - depth ≤ N + 1 →
        StoreKeysValid store (loadSubdirs fs cfg dir depth entries visited store).store ∧
        VisitedFromAbs fs visited (loadSubdirs fs cfg dir depth entries visited store).visited := by
      intro fs cfg dir depth entries visited store hdep hN
      induction entries generalizing visited store with
      | nil =>
        have heq : loadSubdirs fs cfg dir depth [] visited store = ⟨store, visited, none⟩ := by
          simp [loadSubdirs]
        rw [heq]
        exact ⟨fun x hx => absurd rfl hx, fun v hv => Or.inl hv⟩
      | cons e rest ihe =>
        by_cases hcond : (e.isDir && !(hasDotPrefix e.name)) = true
        · have hfd := IH.1 fs cfg (joinPath dir e.name) (depth + 1) visited store (by omega)
          rcases hr : loadFromDirectory fs cfg (joinPath dir e.name) (depth + 1) visited store
            with ⟨s1, vis1, oe⟩
          rw [hr] at hfd
          cases oe with
          | some err =>
            have heq : loadSubdirs fs cfg dir depth (e :: rest) visited store =
                ⟨s1, vis1, some err⟩ := by
              simp only [loadSubdirs]
              rw [if_pos hcond, hr]
            rw [heq]
            exact ⟨hfd.1, hfd.2⟩
          | none =>
            have hrest := ihe vis1 s1
            have heq : loadSubdirs fs cfg dir depth (e :: rest) visited store =
                loadSubdirs fs cfg dir depth rest vis1 s1 := by
              simp only [loadSubdirs]
              rw [if_pos hcond, hr]
            rw [heq]
            constructor
            · intro x hx
              rcases optionChange hx with h1 | h1
              · exact hrest.1 x h1
              · exact hfd.1 x h1
            · intro v hv
              rcases hrest.2 v hv with h1 | h1
              · exact hfd.2 v h1
              · exact Or.inr h1
        · have heq : loadSubdirs fs cfg dir depth (e :: rest) visited store =
              loadSubdirs fs cfg dir depth rest visited store := by
            simp only [loadSubdirs]
            rw [if_neg hcond]
          rw [heq]
          exact ihe visited store
    refine ⟨?_, hsub⟩
    intro fs cfg dir depth visited store hN
    by_cases hguard : cfg.MaxDepth < depth
    · have heq : loadFromDirectory fs cfg dir depth visited store = ⟨store, visited, none⟩ := by
        simp only [loadFromDirectory]
        rw [if_pos hguard]
      rw [heq]
      exact ⟨fun x hx => absurd rfl hx, fun v hv => Or.inl hv⟩
    · have hdep : depth ≤ cfg.MaxDepth := by omega
      rcases habs : fs.abs dir with _ | a
      · have heq : loadFromDirectory fs cfg dir depth visited store =
            ⟨store, visited, some (.absError dir)⟩ := by
          simp only [loadFromDirectory]
          rw [if_neg hguard, habs]
        rw [heq]
        exact ⟨fun x hx => absurd rfl hx, fun v hv => Or.inl hv⟩
      · by_cases hvis : a ∈ visited
        · have heq : loadFromDirectory fs cfg dir depth visited store =
              ⟨store, visited, none⟩ := by
            simp only [loadFromDirectory]
            rw [if_neg hguard, habs]
            dsimp only
            rw [if_pos hvis]
          rw [heq]
          exact ⟨fun x hx => absurd rfl hx, fun v hv => Or.inl hv⟩
        · rcases henv : loadEnvFiles fs dir cfg.StopOnFirst cfg.EnvFiles store
            with ⟨s1, stopped, oe⟩
          have henvSKV : StoreKeysValid store s1 := fun x hx =>
            loadEnvFiles_changed fs dir cfg.StopOnFirst cfg.EnvFiles store x
              (by rw [henv]; exact hx)
          have hvfa1 : VisitedFromAbs fs visited (a :: visited) := by
            intro v hv
            rcases List.mem_cons.mp hv with rfl | h2
            · exact Or.inr ⟨dir, habs⟩
            · exact Or.inl h2
          cases oe with
          | some e =>
            cases stopped <;>
            · have heq : loadFromDirectory fs cfg dir depth visited store =
                  ⟨s1, a :: visited, some e⟩ := by
                simp only [loadFromDirectory]
                rw [if_neg hguard, habs]
                dsimp only
                rw [if_neg hvis, henv]
              rw [heq]
              exact ⟨henvSKV, hvfa1⟩
          | none =>
            cases stopped with
            | true =>
              have heq : loadFromDirectory fs cfg dir depth visited store =
                  ⟨s1, a :: visited, none⟩ := by
                simp only [loadFromDirectory]
                rw [if_neg hguard, habs]
                dsimp only
                rw [if_neg hvis, henv]
              rw [heq]
              exact ⟨henvSKV, hvfa1⟩
            | false =>
              rcases hrd : fs.readDir dir with _ | entries
              · have heq : loadFromDirectory fs cfg dir depth visited store =
                    ⟨s1, a :: visited, some (.readDirError dir)⟩ := by
                  simp only [loadFromDirectory]
                  rw [if_neg hguard, habs]
                  dsimp only
                  rw [if_neg hvis, henv]
                  dsimp only
                  rw [hrd]
                rw [heq]
                exact ⟨henvSKV, hvfa1⟩
              · have hs := hsub fs cfg dir depth entries (a :: visited) s1 hdep hN
                have heq : loadFromDirectory fs cfg dir depth visited store =
                    loadSubdirs fs cfg dir depth entries (a :: visited) s1 := by
                  simp only [loadFromDirectory]
                  rw [if_neg hguard, habs]
                  dsimp only
                  rw [if_neg hvis, henv]
                  dsimp only
                  rw [hrd]
                rw [heq]
                constructor
                · intro x hx
                  rcases optionChange hx with h1 | h1
                  · exact hs.1 x h1
                  · exact henvSKV x h1
                · intro v hv
                  rcases hs.2 v hv with h1 | h1
                  · exact hvfa1 v h1
                  · exact Or.inr h1

theorem c6_loadFile_format_error_witness :
    LoadFile fsBadLine "f" emptyStore =
      (applyLines ["GOOD_KEY=1", "   ", "# note"] emptyStore,
       some (.invalidFormat "f" 4 "NOEQUALS")) := by
  have h := c6_loadFile_format_error fsBadLine "f" ["GOOD_KEY=1", "   ", "# note"] []
    "NOEQUALS" emptyStore (by decide) (by decide) (by decide) (by decide)
  simpa using h

/-! Claim C1. -/

/-- C1: for every file processed via `Load`, `LoadWithConfig` (any
configuration, nil included), or `LoadFile`, every key whose binding in the
EnvironmentStore was inserted or changed has passed key-format validation:
it is non-empty, its first character is a letter or underscore, and every
subsequent character is a letter, digit, or underscore; a line with an
invalid key is never committed. -/
theorem c1_keys_validated (fs : FS) (cfg : Option Config) (path : String)
    (store : Store) (k : String)
    (h : (LoadFile fs path store).1 k ≠ store k ∨
         (LoadWithConfig fs cfg store).store k ≠ store k ∨
         (Load fs store).store k ≠ store k) :
    specValidKey k := by
  have hv : isValidEnvKey k = true := by
    rcases h with h | h | h
    · exact loadVarsFromFile_changed h
    · rcases cfg with _ | c
      · exact ((traversal_aux (DefaultConfig.MaxDepth + 1)).1 fs DefaultConfig "." 0 []
          store (by omega)).1 k h
      · exact ((traversal_aux (c.MaxDepth + 1)).1 fs c "." 0 [] store (by omega)).1 k h
    · exact ((traversal_aux (DefaultConfig.MaxDepth + 1)).1 fs DefaultConfig "." 0 []
        store (by omega)).1 k h
  exact specValidKey_of_isValidEnvKey hv

theorem c1_keys_validated_witness : specValidKey "A" :=
  c1_keys_validated fsOneLine none "f" emptyStore "A" (Or.inl (by decide))

/-! Claim C2. -/

/-- C2 counterexample: on `fsSiblings` — `./a/.env` at depth 1 and
`./b/c/.env` at depth 2, in sibling subtrees — `Load` with the default
configuration (`stopOnFirstMatch = true`) succeeds, the first-discovered
(shallower) file `./a/.env` is applied, and, against the claim, the
directories `./b` and `./b/c` are still read afterwards and the deeper
file's key `B_KEY` is also set rather than remaining unset. -/
theorem c2_stopOnFirst_cex :
    (LoadWithConfig fsSiblings none emptyStore).err = none ∧
    (LoadWithConfig fsSiblings none emptyStore).store "A_KEY" = some "1" ∧
    (LoadWithConfig fsSiblings none emptyStore).store "B_KEY" = some "2" ∧
    "./b" ∈ (LoadWithConfig fsSiblings none emptyStore).visited ∧
    "./b/c" ∈ (LoadWithConfig fsSiblings none emptyStore).visited := by
  refine ⟨?_, ?_, ?_, ?_, ?_⟩ <;>
    simp [LoadWithConfig, loadFromDirectory, loadSubdirs, loadEnvFiles, loadVarsFromFile,
      processLines, parseAndSetEnvVar, parseEnvLine, splitFirst, trimSpace, trimLeading,
      trimTrailing, stripQuotes, isValidEnvKey, isKeyStartChar, isKeyTailChar, isSkipLine,
      setEnv, joinPath, fsSiblings, DefaultConfig, MaxDepth, emptyStore, hasDotPrefix] <;>
    decide

/-- C2 amended: when `stopOnFirstMatch` is true, a successful file parse
ends the traversal of the current directory only: the directory's entries
are never read and no subdirectory of it is visited (the result is the
same for every behaviour of `readDir` on it), so a deeper candidate below
that directory stays unloaded — concretely, with `.env` in the root and in
`./sub`, only the root file is applied and `SUB_KEY` remains unset.  The
operation does not end globally: sibling directories of the matching
directory are still traversed and their candidate files still loaded. -/
theorem c2_stopOnFirst_amended :
    (∀ (fs : FS) (cfg : Config) (dir : String) (depth : Nat) (visited : List String)
        (store store' : Store) (a f : String) (rest : List String),
      depth ≤ cfg.MaxDepth → fs.abs dir = some a → a ∉ visited →
      cfg.StopOnFirst = true → cfg.EnvFiles = f :: rest →
      fs.fileExists (joinPath dir f) = true →
      loadVarsFromFile fs (joinPath dir f) store = (store', none) →
      loadFromDirectory fs cfg dir depth visited store = ⟨store', a :: visited, none⟩) ∧
    (Load fsNested emptyStore).err = none ∧
    (Load fsNested emptyStore).store "ROOT_KEY" = some "r" ∧
    (Load fsNested emptyStore).store "SUB_KEY" = none := by
  constructor
  · intro fs cfg dir depth visited store store' a f rest hdep habs hvis hstop hfiles hex hlv
    have henv : loadEnvFiles fs dir cfg.StopOnFirst cfg.EnvFiles store =
        (store', true, none) := by
      rw [hfiles]
      simp only [loadEnvFiles]
      rw [if_pos hex, hlv]
      dsimp only
      rw [hstop]
      simp only [if_true]
    simp only [loadFromDirectory]
    rw [if_neg (by omega), habs]
    dsimp only
    rw [if_neg hvis, henv]
  · refine ⟨?_, ?_, ?_⟩ <;>
      simp [Load, LoadWithConfig, loadFromDirectory, loadSubdirs, loadEnvFiles,
        loadVarsFromFile, processLines, parseAndSetEnvVar, parseEnvLine, splitFirst,
        trimSpace, trimLeading, trimTrailing, stripQuotes, isValidEnvKey, isKeyStartChar,
        isKeyTailChar, isSkipLine, setEnv, joinPath, fsNested, DefaultConfig, MaxDepth,
        emptyStore, hasDotPrefix] <;>
      decide

theorem c2_stopOnFirst_amended_witness :
    loadFromDirectory fsNested DefaultConfig "." 0 [] emptyStore =
      ⟨setEnv emptyStore "ROOT_KEY" "r", ["."], none⟩ :=
  c2_stopOnFirst_amended.1 fsNested DefaultConfig "." 0 [] emptyStore
    (setEnv emptyStore "ROOT_KEY" "r") "." ".env" [] (by decide) rfl
    (by decide) rfl rfl (by decide) rfl

/-! Claim C3. -/

/-- C3 counterexample: on `fsAlias` — the traversal started in a directory
whose working-directory path `/tmp/alias` goes through a symbolic link to
`/real/proj` — `Load` succeeds, and the visited set ends up holding exactly
`/tmp/alias` and `/tmp/alias/sub`: both entries are absolute but neither is
symlink-resolved (`resolveAlias` maps each to a different, real path), so
paths added to the visited set are not canonicalized by resolving symbolic
links as the claim states.  The visited set also shows the self-link `loop`
was never entered: `os.ReadDir` reports the symlink as a non-directory and
the subdirectory loop skips it. -/
theorem c3_visited_cex :
    (Load fsAlias emptyStore).err = none ∧
    (Load fsAlias emptyStore).visited = ["/tmp/alias/sub", "/tmp/alias"] ∧
    resolveAlias "/tmp/alias" ≠ "/tmp/alias" ∧
    resolveAlias "/tmp/alias/sub" ≠ "/tmp/alias/sub" := by
  refine ⟨?_, ?_, ?_, ?_⟩ <;>
    simp [Load, LoadWithConfig, loadFromDirectory, loadSubdirs, loadEnvFiles,
      loadVarsFromFile, processLines, parseAndSetEnvVar, parseEnvLine, splitFirst,
      trimSpace, trimLeading, trimTrailing, stripQuotes, isValidEnvKey, isKeyStartChar,
      isKeyTailChar, isSkipLine, setEnv, joinPath, fsAlias, resolveAlias, DefaultConfig,
      MaxDepth, emptyStore, hasDotPrefix]

/-- C3 amended: every path checked against or added to the visited set is
an output of `filepath.Abs` on a directory path — made absolute lexically,
with no symbolic-link resolution: any entry of the final visited set was
either already visited or is `fs.abs d` for some path `d`.  Protection
against symlink cycles does not come from canonicalizing the visited set:
the traversal never recurses into a symbolic link in the first place,
because `os.ReadDir` reports a symlink entry as a non-directory and the
subdirectory loop descends only into entries reported as directories. -/
theorem c3_visited_amended :
    (∀ (fs : FS) (cfg : Config) (dir : String) (depth : Nat) (visited : List String)
        (store : Store) (v : String),
      v ∈ (loadFromDirectory fs cfg dir depth visited store).visited →
      v ∈ visited ∨ ∃ d, fs.abs d = some v) ∧
    (∀ (fs : FS) (cfg : Config) (dir : String) (depth : Nat) (e : DirEntry)
        (rest : List DirEntry) (visited : List String) (store : Store),
      e.isDir = false →
      loadSubdirs fs cfg dir depth (e :: rest) visited store =
        loadSubdirs fs cfg dir depth rest visited store) := by
  constructor
  · intro fs cfg dir depth visited store v hv
    exact ((traversal_aux (cfg.MaxDepth + 1)).1 fs cfg dir depth visited store
      (by omega)).2 v hv
  · intro fs cfg dir depth e rest visited store he
    simp only [loadSubdirs]
    rw [if_neg (by simp [he])]

theorem c3_visited_amended_witness :
    ("/tmp/alias" ∈ ([] : List String) ∨ ∃ d, fsAlias.abs d = some "/tmp/alias") ∧
    loadSubdirs fsAlias DefaultConfig "." 0 [⟨"loop", false⟩] ["/tmp/alias"] emptyStore =
      loadSubdirs fsAlias DefaultConfig "." 0 [] ["/tmp/alias"] emptyStore :=
  ⟨c3_visited_amended.1 fsAlias DefaultConfig "." 0 [] emptyStore "/tmp/alias"
    (by
      simp [loadFromDirectory, loadSubdirs, loadEnvFiles, loadVarsFromFile,
        processLines, parseAndSetEnvVar, parseEnvLine, splitFirst, trimSpace, trimLeading,
        trimTrailing, stripQuotes, isValidEnvKey, isKeyStartChar, isKeyTailChar, isSkipLine,
        setEnv, joinPath, fsAlias, DefaultConfig, MaxDepth, emptyStore, hasDotPrefix]),
   c3_visited_amended.2 fsAlias DefaultConfig "." 0 ⟨"loop", false⟩ [] ["/tmp/alias"]
     emptyStore rfl⟩

/-! Claim C7. -/

/-- C7: depth is counted from the starting directory at 0 and incremented
per level; a directory at depth strictly greater than `maxDepth` is never
enumerated and its children never visited (the call returns with store and
visited set untouched and no error, for every filesystem — in particular
its `readDir` is never consulted); with `maxDepth = 3` the candidate file
six levels deep in `fsDeep` is never found and its key stays unset, while
with any `maxDepth ≥ 6` it is found and loaded. -/
theorem c7_depth_bound :
    (∀ (fs : FS) (cfg : Config) (dir : String) (depth : Nat) (visited : List String)
        (store : Store), cfg.MaxDepth < depth →
      loadFromDirectory fs cfg dir depth visited store = ⟨store, visited, none⟩) ∧
    (LoadWithConfig fsDeep (some (cfgDeep 3)) emptyStore).store "DEEP_KEY" = none ∧
    (∀ d, 6 ≤ d →
      (LoadWithConfig fsDeep (some (cfgDeep d)) emptyStore).store "DEEP_KEY" =
        some "deep_value") := by
  refine ⟨?_, ?_, ?_⟩
  · intro fs cfg dir depth visited store h
    simp only [loadFromDirectory]
    rw [if_pos h]
  · simp [LoadWithConfig, loadFromDirectory, loadSubdirs, loadEnvFiles, loadVarsFromFile,
      processLines, parseAndSetEnvVar, parseEnvLine, splitFirst, trimSpace, trimLeading,
      trimTrailing, stripQuotes, isValidEnvKey, isKeyStartChar, isKeyTailChar, isSkipLine,
      setEnv, joinPath, fsDeep, cfgDeep, emptyStore, hasDotPrefix]
  · intro d hd
    have h0 : ¬ (d < 1) := by omega
    have h1 : ¬ (d < 2) := by omega
    have h2 : ¬ (d < 3) := by omega
    have h3 : ¬ (d < 4) := by omega
    have h4 : ¬ (d < 5) := by omega
    have h5 : ¬ (d < 6) := by omega
    have h6 : ¬ (d < 0) := by omega
    simp [LoadWithConfig, loadFromDirectory, loadSubdirs, loadEnvFiles, loadVarsFromFile,
      processLines, parseAndSetEnvVar, parseEnvLine, splitFirst, trimSpace, trimLeading,
      trimTrailing, stripQuotes, isValidEnvKey, isKeyStartChar, isKeyTailChar, isSkipLine,
      setEnv, joinPath, fsDeep, cfgDeep, emptyStore, hasDotPrefix, h0, h1, h2, h3, h4, h5, h6]
    exact ⟨by decide, by decide⟩

theorem c7_depth_bound_witness :
    loadFromDirectory fsDeep (cfgDeep 3) "anywhere" 4 [] emptyStore = ⟨emptyStore, [], none⟩ ∧
    (LoadWithConfig fsDeep (some (cfgDeep 6)) emptyStore).store "DEEP_KEY" =
      some "deep_value" :=
  ⟨c7_depth_bound.1 fsDeep (cfgDeep 3) "anywhere" 4 [] emptyStore (by decide),
   c7_depth_bound.2.2 6 (by decide)⟩

/-! Claim C8. -/

/-- C8: a failure to open or read a candidate file fails the whole parse:
`LoadFile` returns the I/O error for the path, and a traversal that finds
an existing candidate whose read fails returns the wrapped
`failed to load <path>` error — the failure is propagated, never ignored
and never turned into success. -/
theorem c8_read_failure_propagates :
    (∀ (fs : FS) (path : String) (store : Store), fs.readFile path = none →
      LoadFile fs path store = (store, some (.ioError path))) ∧
    (∀ (fs : FS) (cfg : Config) (dir : String) (depth : Nat) (visited : List String)
        (store : Store) (a f : String) (rest : List String),
      depth ≤ cfg.MaxDepth → fs.abs dir = some a → a ∉ visited →
      cfg.EnvFiles = f :: rest → fs.fileExists (joinPath dir f) = true →
      fs.readFile (joinPath dir f) = none →
      loadFromDirectory fs cfg dir depth visited store =
        ⟨store, a :: visited,
         some (.loadFailed (joinPath dir f) (.ioError (joinPath dir f)))⟩) := by
  constructor
  · intro fs path store h
    simp [LoadFile, loadVarsFromFile, h]
  · intro fs cfg dir depth visited store a f rest hdep habs hvis hfiles hex hread
    have henv : loadEnvFiles fs dir cfg.StopOnFirst cfg.EnvFiles store =
        (store, false, some (.loadFailed (joinPath dir f) (.ioError (joinPath dir f)))) := by
      rw [hfiles]
      simp only [loadEnvFiles]
      rw [if_pos hex]
      simp only [loadVarsFromFile, hread]
    simp only [loadFromDirectory]
    rw [if_neg (by omega), habs]
    dsimp only
    rw [if_neg hvis, henv]

theorem c8_read_failure_propagates_witness :
    LoadFile fsUnreadable "x" emptyStore = (emptyStore, some (.ioError "x")) ∧
    loadFromDirectory fsUnreadable DefaultConfig "." 0 [] emptyStore =
      ⟨emptyStore, ["."],
       some (.loadFailed (joinPath "." ".env") (.ioError (joinPath "." ".env")))⟩ :=
  ⟨c8_read_failure_propagates.1 fsUnreadable "x" emptyStore rfl,
   c8_read_failure_propagates.2 fsUnreadable DefaultConfig "." 0 [] emptyStore "." ".env" []
     (by decide) rfl (by decide) rfl (by decide) rfl⟩

end Goenv
